import Mathlib

/-!
Verification of the AuraLinkerBot message-handling workflow (src/bot.py).

The Python source is shallowly embedded: text is `List Char`, the regex
search of `extract_url` is implemented as a leftmost-match scan, Python's
substring operator `in` as `strContains`, and the side-effecting handler
`handle_text` as a pure function from an environment (message text plus
the outcomes of the fallible external calls: the yt-dlp fetch, the video
send, the document send, and the state of the download directory) to the
list of externally visible events it performs, in order.
-/

namespace AuraLinker

/-- Python `\s` whitespace for the ASCII range (space, tab, newline,
carriage return, vertical tab, form feed). -/
def pyWS (c : Char) : Bool :=
  c = ' ' || c = '\t' || c = '\n' || c = '\r' || c = Char.ofNat 11 || c = Char.ofNat 12

/-- `str.lower()` on a character list. -/
def lowers (s : List Char) : List Char := s.map Char.toLower

/-- Python's substring operator `needle in hay` on strings. -/
def strContains : List Char → List Char → Bool
  | hay, needle =>
    match hay with
    | [] => needle.isPrefixOf ([] : List Char)
    | c :: t => needle.isPrefixOf (c :: t) || strContains t needle

/-- `ALLOWED_HOSTS` from src/bot.py. -/
def ALLOWED_HOSTS : List (List Char) :=
  ["youtube.com".data, "youtu.be".data, "tiktok.com".data,
   "facebook.com".data, "fb.watch".data]

/-- `supports_site` from src/bot.py:
`any(host in url.lower() for host in ALLOWED_HOSTS)`. -/
def supports_site (url : List Char) : Bool :=
  ALLOWED_HOSTS.any (fun host => strContains (lowers url) host)

/-- The scheme part of `URL_REGEX = (https?://[^\s]+)` with `re.IGNORECASE`:
returns the length of the scheme matched at the head of `cs`
(8 for `https://`, 7 for `http://`), or none. The two cases are mutually
exclusive, so trying the longer alternative first is the regex's
greedy `s?`. -/
def schemeLen (cs : List Char) : Option Nat :=
  if lowers (cs.take 8) = "https://".data then some 8
  else if lowers (cs.take 7) = "http://".data then some 7
  else none

/-- One attempted regex match of `URL_REGEX` anchored at the head of `cs`:
the scheme followed by a nonempty greedy run `[^\s]+` of non-whitespace. -/
def tryAt (cs : List Char) : Option (List Char) :=
  match schemeLen cs with
  | none => none
  | some n =>
    let run := (cs.drop n).takeWhile (fun c => !pyWS c)
    if run = [] then none else some (cs.take n ++ run)

/-- `re.search`: the leftmost position at which `URL_REGEX` matches. -/
def searchFrom : List Char → Option (List Char)
  | [] => none
  | c :: cs =>
    match tryAt (c :: cs) with
    | some m => some m
    | none => searchFrom cs

/-- Python `str.strip()`: drop leading and trailing whitespace. -/
def strip (s : List Char) : List Char :=
  ((s.dropWhile pyWS).reverse.dropWhile pyWS).reverse

/-- `extract_url` from src/bot.py: empty text yields none, otherwise
search the stripped text for the first `URL_REGEX` match. -/
def extract_url (text : List Char) : Option (List Char) :=
  if text = [] then none else searchFrom (strip text)

/-- Outcome of `p.unlink(missing_ok=True)` on one directory entry:
success, a suppressed FileNotFoundError, or any other exception. -/
inductive DelOutcome where
  | ok
  | notFound
  | err
deriving DecidableEq

/-- One entry of the download directory as the sweep observes it:
name, whether `p.is_file()` holds, `p.stat().st_mtime` in seconds,
and the outcome its `unlink` would have. -/
structure FileEnt where
  name : String
  isFile : Bool
  mtime : Int
  del : DelOutcome
deriving DecidableEq

/-- The janitor sweep body from `handle_text`'s finally block: iterate the
directory in order, unlink every regular file with
`st_mtime < loop_time - 60*60` (where `loop_time` is the value of
`asyncio.get_event_loop().time()` at sweep time), suppress
FileNotFoundError per file, and abort the whole loop silently on any
other exception. Returns the names actually deleted. -/
def sweepGo (loopTime : Int) : List FileEnt → List String
  | [] => []
  | e :: es =>
    if e.isFile = true ∧ e.mtime < loopTime - 60 * 60 then
      match e.del with
      | DelOutcome.ok => e.name :: sweepGo loopTime es
      | DelOutcome.notFound => sweepGo loopTime es
      | DelOutcome.err => []
    else sweepGo loopTime es

/-- The janitor as §4.4 of the spec words it (the comparison clause only,
for comparison with `sweepGo`): delete every regular file whose
last-modified time is older than one hour relative to wall-clock time
`now` at sweep time. -/
def sweepWallClockSpec (now : Int) (fs : List FileEnt) : List String :=
  (fs.filter (fun e => e.isFile && decide (e.mtime < now - 60 * 60))).map
    (fun e => e.name)

/-- The externally visible actions of one `handle_text` invocation, in
program order: the rejection reply, the `UPLOAD_VIDEO` chat action, the
progress message, the `asyncio.to_thread(ytdlp_download, url)` call, the
`reply_video` and `reply_document` attempts (with file path and caption),
deleting or editing the progress message, and the janitor sweep of the
finally block (with the names it deleted). -/
inductive Event where
  | rejectReply
  | chatAction
  | progressSent (msg : String)
  | fetchInvoked (url : List Char)
  | videoAttempt (path : String) (caption : String)
  | docAttempt (path : String) (caption : String)
  | progressDeleted
  | progressEdited (msg : String)
  | sweepRun (deleted : List String)
deriving DecidableEq

def Event.isDocAttempt : Event → Bool
  | Event.docAttempt _ _ => true
  | _ => false

def Event.isAttach : Event → Bool
  | Event.videoAttempt _ _ => true
  | Event.docAttempt _ _ => true
  | _ => false

def Event.isSweep : Event → Bool
  | Event.sweepRun _ => true
  | _ => false

/-- The environment of one `handle_text` invocation: the message text and
the outcomes the outside world gives to each fallible external call the
handler can make. `fetch` is `ytdlp_download`'s outcome: an exception
message, or the file path together with `info.get("title")` (none when
the metadata has no title). `videoSend` and `docSend` are the outcomes of
`reply_video` and `reply_document`. `loopTime` is the event loop clock
value and `files` the download directory at sweep time. -/
structure Env where
  text : List Char
  fetch : Except String (String × Option String)
  videoSend : Except String Unit
  docSend : Except String Unit
  loopTime : Int
  files : List FileEnt

def progressText : String := "⏳ Downloading your video..."

def videoCaption (title : String) : String :=
  "✅ " ++ title ++ "\n🌌 Thanks for using AuraLinkerBot!"

def docCaption (title : String) : String :=
  "✅ " ++ title ++ " (sent as file)\n🌌 Thanks for using AuraLinkerBot!"

def errText (e : String) : String := "⚠️ Error: " ++ e

/-- The events of the try block's body after the fetch call: on fetch
failure the outer except edits the progress message; on success the video
send is attempted, falling back once to a document send, whose own
failure propagates to the same outer except; a successful relay deletes
the progress message. -/
def relayEvents (env : Env) : List Event :=
  match env.fetch with
  | Except.error e => [Event.progressEdited (errText e)]
  | Except.ok (path, t) =>
    let title := t.getD "video"
    match env.videoSend with
    | Except.ok _ =>
      [Event.videoAttempt path (videoCaption title), Event.progressDeleted]
    | Except.error _ =>
      match env.docSend with
      | Except.ok _ =>
        [Event.videoAttempt path (videoCaption title),
         Event.docAttempt path (docCaption title), Event.progressDeleted]
      | Except.error d =>
        [Event.videoAttempt path (videoCaption title),
         Event.docAttempt path (docCaption title),
         Event.progressEdited (errText d)]

/-- `handle_text` from src/bot.py as its event trace. Python's
`if not url or not supports_site(url)` rejects both a missing URL and an
unsupported one (the `not url` falsy test also covers an empty string);
the rejection path returns before the try/finally. Otherwise the handler
emits the chat action and progress message, invokes the fetcher, relays
per `relayEvents`, and the finally block always runs the sweep. -/
def handle_text (env : Env) : List Event :=
  match extract_url env.text with
  | none => [Event.rejectReply]
  | some url =>
    if url = [] ∨ supports_site url = false then [Event.rejectReply]
    else
      Event.chatAction :: Event.progressSent progressText ::
        Event.fetchInvoked url ::
        (relayEvents env ++ [Event.sweepRun (sweepGo env.loopTime env.files)])

/-- A file 30 minutes old on the wall clock (epoch seconds). -/
def fileA : FileEnt :=
  { name := "a.mp4", isFile := true, mtime := 1700000000 - 30 * 60,
    del := DelOutcome.ok }

/-- A file 90 minutes old on the wall clock (epoch seconds). -/
def fileB : FileEnt :=
  { name := "b.mp4", isFile := true, mtime := 1700000000 - 90 * 60,
    del := DelOutcome.ok }

/-- Sweep entries for the abort scenario: deletable, erroring, deletable. -/
def g1ok : FileEnt :=
  { name := "g1.mp4", isFile := true, mtime := 100, del := DelOutcome.ok }

def g2err : FileEnt :=
  { name := "g2.mp4", isFile := true, mtime := 100, del := DelOutcome.err }

def g3ok : FileEnt :=
  { name := "g3.mp4", isFile := true, mtime := 100, del := DelOutcome.ok }

/-- A message with no URL; the directory holds a file the sweep would
delete (its mtime is below the loop clock minus one hour). -/
def envHello : Env :=
  { text := "hello world".data, fetch := Except.error ("never called"),
    videoSend := Except.ok (), docSend := Except.ok (),
    loopTime := 10000,
    files := [{ name := "old.mp4", isFile := true, mtime := 100,
                del := DelOutcome.ok }] }

/-- A supported URL whose fetch succeeds but whose video send fails. -/
def envC2 : Env :=
  { text := "https://youtu.be/abc".data,
    fetch := Except.ok ("f.mp4", some ("T")),
    videoSend := Except.error ("too big"), docSend := Except.ok (),
    loopTime := 0, files := [] }

/-- A supported URL whose fetch raises a network timeout. -/
def envC3 : Env :=
  { text := "get https://www.youtube.com/watch?v=1 pls".data,
    fetch := Except.error ("network timeout"),
    videoSend := Except.ok (), docSend := Except.ok (),
    loopTime := 10000,
    files := [{ name := "x.bin", isFile := true, mtime := 100,
                del := DelOutcome.ok }] }

/-- A message with no URL at all. -/
def envC5 : Env :=
  { text := "hello world".data, fetch := Except.error ("never called"),
    videoSend := Except.ok (), docSend := Except.ok (),
    loopTime := 0, files := [] }

/-- A supported URL with a fully successful run. -/
def envC6 : Env :=
  { text := "https://fb.watch/abc".data,
    fetch := Except.ok ("v.mp4", none),
    videoSend := Except.ok (), docSend := Except.ok (),
    loopTime := 10000, files := [] }

/-! Lemmas about the string primitives. -/

lemma strContains_iff (hay needle : List Char) :
    strContains hay needle = true ↔ ∃ a b, a ++ needle ++ b = hay := by
  induction hay with
  | nil =>
    simp [strContains, List.isPrefixOf_iff_prefix, List.prefix_nil,
      List.append_eq_nil]
  | cons c tl ih =>
    simp only [strContains, Bool.or_eq_true, List.isPrefixOf_iff_prefix, ih]
    constructor
    · rintro (⟨y, hy⟩ | ⟨a, b, hab⟩)
      · exact ⟨[], y, by simpa using hy⟩
      · exact ⟨c :: a, b, by simp only [List.cons_append, hab]⟩
    · rintro ⟨a, b, hab⟩
      cases a with
      | nil => exact Or.inl ⟨b, by simpa using hab⟩
      | cons c' as =>
        simp only [List.cons_append] at hab
        injection hab with h1 h2
        exact Or.inr ⟨as, b, h2⟩

lemma pyWS_toLower {c : Char} (h : pyWS c = true) : Char.toLower c = c := by
  simp only [pyWS, Bool.or_eq_true, decide_eq_true_eq] at h
  rcases h with ((((h | h) | h) | h) | h) | h <;> subst h <;> decide

lemma ws_chars_https : ∀ c ∈ ("https://".data), pyWS c = false := by decide

lemma ws_chars_http : ∀ c ∈ ("http://".data), pyWS c = false := by decide

lemma schemeLen_cases {cs : List Char} {n : Nat} (h : schemeLen cs = some n) :
    (n = 8 ∧ lowers (cs.take 8) = "https://".data) ∨
    (n = 7 ∧ lowers (cs.take 7) = "http://".data) := by
  unfold schemeLen at h
  by_cases h8 : lowers (cs.take 8) = "https://".data
  · rw [if_pos h8] at h
    exact Or.inl ⟨(Option.some.inj h).symm, h8⟩
  · rw [if_neg h8] at h
    by_cases h7 : lowers (cs.take 7) = "http://".data
    · rw [if_pos h7] at h
      exact Or.inr ⟨(Option.some.inj h).symm, h7⟩
    · rw [if_neg h7] at h
      cases h

lemma schemeLen_nonws {cs : List Char} {n : Nat} (h : schemeLen cs = some n) :
    ∀ c ∈ cs.take n, pyWS c = false := by
  intro c hc
  by_contra hne
  have hws : pyWS c = true := by
    cases hb : pyWS c
    · exact absurd hb hne
    · rfl
  rcases schemeLen_cases h with ⟨hn, hp⟩ | ⟨hn, hp⟩
  · subst hn
    have hm : Char.toLower c ∈ lowers (cs.take 8) :=
      List.mem_map_of_mem _ hc
    rw [hp, pyWS_toLower hws] at hm
    simp [ws_chars_https c hm] at hws
  · subst hn
    have hm : Char.toLower c ∈ lowers (cs.take 7) :=
      List.mem_map_of_mem _ hc
    rw [hp, pyWS_toLower hws] at hm
    simp [ws_chars_http c hm] at hws

lemma mem_takeWhile {p : Char → Bool} :
    ∀ {l : List Char} {a : Char}, a ∈ l.takeWhile p → p a = true := by
  intro l
  induction l with
  | nil => intro a h; simp [List.takeWhile] at h
  | cons c t ih =>
    intro a h
    rw [List.takeWhile_cons] at h
    by_cases hc : p c = true
    · rw [if_pos hc] at h
      rcases List.mem_cons.1 h with rfl | h'
      · exact hc
      · exact ih h'
    · rw [if_neg hc] at h
      simp at h

lemma takeWhile_take_append (p : Char → Bool) (n : Nat) :
    ∀ l : List Char, (∀ c ∈ l.take n, p c = true) →
      l.takeWhile p = l.take n ++ (l.drop n).takeWhile p := by
  induction n with
  | zero => intro l h; simp
  | succ m ih =>
    intro l h
    cases l with
    | nil => simp
    | cons c t =>
      have hc : p c = true := h c (by simp)
      have ht : ∀ d ∈ t.take m, p d = true := fun d hd => h d (by simp [hd])
      simp [List.takeWhile_cons, hc, ih t ht]

lemma tryAt_nil : tryAt ([] : List Char) = none := by decide

lemma tryAt_isSome_decomp {cs u : List Char} (h : tryAt cs = some u) :
    ∃ n, schemeLen cs = some n ∧
      u = cs.take n ++ (cs.drop n).takeWhile (fun c => !pyWS c) ∧
      (cs.drop n).takeWhile (fun c => !pyWS c) ≠ [] := by
  cases hs : schemeLen cs with
  | none =>
    simp only [tryAt, hs] at h
    exact Option.noConfusion h
  | some n =>
    simp only [tryAt, hs] at h
    by_cases hr : (cs.drop n).takeWhile (fun c => !pyWS c) = []
    · rw [if_pos hr] at h
      cases h
    · rw [if_neg hr] at h
      exact ⟨n, rfl, (Option.some.inj h).symm, hr⟩

lemma searchFrom_some {s u : List Char} (h : searchFrom s = some u) :
    ∃ i, tryAt (s.drop i) = some u := by
  induction s with
  | nil => simp [searchFrom] at h
  | cons c t ih =>
    simp only [searchFrom] at h
    cases hm : tryAt (c :: t) with
    | some m =>
      rw [hm] at h
      exact ⟨0, by rw [List.drop_zero, hm]; exact h⟩
    | none =>
      rw [hm] at h
      obtain ⟨i, hi⟩ := ih h
      exact ⟨i + 1, by rw [List.drop_succ_cons]; exact hi⟩

lemma searchFrom_first {s : List Char} (i : Nat)
    (h : (tryAt (s.drop i)).isSome = true) :
    ∃ j, j ≤ i ∧ (∀ k, k < j → tryAt (s.drop k) = none) ∧
      searchFrom s = tryAt (s.drop j) ∧ (tryAt (s.drop j)).isSome = true := by
  induction s generalizing i with
  | nil =>
    rw [List.drop_nil, tryAt_nil] at h
    simp at h
  | cons c t ih =>
    cases hm : tryAt (c :: t) with
    | some m =>
      refine ⟨0, Nat.zero_le i, fun k hk => absurd hk (Nat.not_lt_zero k), ?_, ?_⟩
      · simp only [searchFrom, hm, List.drop_zero]
      · rw [List.drop_zero, hm]
        rfl
    | none =>
      cases i with
      | zero =>
        rw [List.drop_zero, hm] at h
        simp at h
      | succ i' =>
        rw [List.drop_succ_cons] at h
        obtain ⟨j, hj, hnone, heq, hsome⟩ := ih i' h
        refine ⟨j + 1, Nat.succ_le_succ hj, ?_, ?_, ?_⟩
        · intro k hk
          cases k with
          | zero =>
            rw [List.drop_zero]
            exact hm
          | succ k' =>
            rw [List.drop_succ_cons]
            exact hnone k' (Nat.lt_of_succ_lt_succ hk)
        · rw [List.drop_succ_cons]
          simp only [searchFrom, hm]
          exact heq
        · rw [List.drop_succ_cons]
          exact hsome

lemma tryAt_eq_takeWhile {cs : List Char} (h : (tryAt cs).isSome = true) :
    tryAt cs = some (cs.takeWhile (fun c => !pyWS c)) := by
  cases hm : tryAt cs with
  | none =>
    rw [hm] at h
    simp at h
  | some u =>
    obtain ⟨n, hs, hu, hne⟩ := tryAt_isSome_decomp hm
    have hnw : ∀ c ∈ cs.take n, (fun c => !pyWS c) c = true := by
      intro c hc
      simp [schemeLen_nonws hs c hc]
    rw [hu, takeWhile_take_append _ n cs hnw]

lemma strip_decomp (t : List Char) : ∃ a b, a ++ strip t ++ b = t := by
  refine ⟨t.takeWhile pyWS,
    ((t.dropWhile pyWS).reverse.takeWhile pyWS).reverse, ?_⟩
  have h3 : ((t.dropWhile pyWS).reverse.dropWhile pyWS).reverse ++
      ((t.dropWhile pyWS).reverse.takeWhile pyWS).reverse = t.dropWhile pyWS := by
    rw [← List.reverse_append, List.takeWhile_append_dropWhile,
      List.reverse_reverse]
  calc t.takeWhile pyWS ++ strip t ++
        ((t.dropWhile pyWS).reverse.takeWhile pyWS).reverse
      = t.takeWhile pyWS ++ (strip t ++
        ((t.dropWhile pyWS).reverse.takeWhile pyWS).reverse) := by
        rw [List.append_assoc]
    _ = t.takeWhile pyWS ++ t.dropWhile pyWS := by
        rw [strip]
        rw [h3]
    _ = t := List.takeWhile_append_dropWhile pyWS t

lemma sub_of_drop {s u : List Char} (i : Nat) (h : ∃ d, u ++ d = s.drop i) :
    ∃ x y, x ++ u ++ y = s := by
  obtain ⟨d, hd⟩ := h
  exact ⟨s.take i, d, by rw [List.append_assoc, hd, List.take_append_drop]⟩

lemma sub_of_sub_of_sub {u s t : List Char} (h1 : ∃ x y, x ++ u ++ y = s)
    (h2 : ∃ a b, a ++ s ++ b = t) : ∃ p q, p ++ u ++ q = t := by
  obtain ⟨x, y, hs⟩ := h1
  obtain ⟨a, b, ht⟩ := h2
  exact ⟨a ++ x, y ++ b, by rw [← ht, ← hs]; simp [List.append_assoc]⟩

/-- Everything `extract_url` guarantees about a returned URL: it is a
contiguous substring of the input, its lowercased form is an http or
https scheme followed by a nonempty remainder, and it contains no
whitespace. -/
lemma extract_sound {t u : List Char} (h : extract_url t = some u) :
    (∃ a b, a ++ u ++ b = t) ∧
    ((∃ r, lowers u = "http://".data ++ r ∧ r ≠ []) ∨
     (∃ r, lowers u = "https://".data ++ r ∧ r ≠ [])) ∧
    (∀ c ∈ u, pyWS c = false) := by
  have hne : ¬(t = []) := by
    intro ht
    rw [extract_url, if_pos ht] at h
    cases h
  rw [extract_url, if_neg hne] at h
  obtain ⟨i, hi⟩ := searchFrom_some h
  obtain ⟨n, hsch, hu, hw⟩ := tryAt_isSome_decomp hi
  refine ⟨?_, ?_, ?_⟩
  · apply sub_of_sub_of_sub _ (strip_decomp t)
    apply sub_of_drop i
    refine ⟨(((strip t).drop i).drop n).dropWhile (fun c => !pyWS c), ?_⟩
    rw [hu, List.append_assoc, List.takeWhile_append_dropWhile,
      List.take_append_drop]
  · rcases schemeLen_cases hsch with ⟨hn, hp⟩ | ⟨hn, hp⟩
    · subst hn
      refine Or.inr ⟨lowers ((((strip t).drop i).drop 8).takeWhile
        (fun c => !pyWS c)), ?_, ?_⟩
      · rw [hu]
        simp only [lowers, List.map_append] at hp ⊢
        rw [hp]
      · simpa [lowers] using hw
    · subst hn
      refine Or.inl ⟨lowers ((((strip t).drop i).drop 7).takeWhile
        (fun c => !pyWS c)), ?_, ?_⟩
      · rw [hu]
        simp only [lowers, List.map_append] at hp ⊢
        rw [hp]
      · simpa [lowers] using hw
  · intro c hc
    rw [hu] at hc
    rcases List.mem_append.1 hc with hc1 | hc2
    · exact schemeLen_nonws hsch c hc1
    · simpa using mem_takeWhile hc2

/-! Lemmas about the handler. -/

lemma guard_false {url : List Char} (hs : supports_site url = true) :
    ¬(url = [] ∨ supports_site url = false) := by
  rintro (rfl | hbad)
  · exact absurd hs (by decide)
  · rw [hs] at hbad
    cases hbad

lemma relay_no_sweep (env : Env) :
    (relayEvents env).countP Event.isSweep = 0 := by
  cases hf : env.fetch with
  | error e => simp [relayEvents, hf, Event.isSweep]
  | ok pr =>
    obtain ⟨path, tOpt⟩ := pr
    cases hv : env.videoSend with
    | ok uu => simp [relayEvents, hf, hv, Event.isSweep]
    | error v =>
      cases hd : env.docSend with
      | ok uu => simp [relayEvents, hf, hv, hd, Event.isSweep]
      | error d => simp [relayEvents, hf, hv, hd, Event.isSweep]

/-! The claims. -/

/-- Claim C1 (code bug). The spec's janitor deletes exactly the files
whose mtime is more than one hour below wall-clock time, so on a
directory holding files 30 and 90 minutes old it deletes exactly the
90-minute one. The code instead compares the epoch-seconds mtime with
the event loop's monotonic clock (`asyncio.get_event_loop().time()`,
seconds since an arbitrary origin such as boot, here 10000), so the
comparison is false for both files and the sweep deletes nothing. -/
theorem janitor_clock_code_bug :
    fileA.mtime = 1700000000 - 30 * 60 ∧
    fileB.mtime = 1700000000 - 90 * 60 ∧
    sweepGo 10000 [fileA, fileB] = [] ∧
    sweepWallClockSpec 1700000000 [fileA, fileB] = [fileB.name] := by
  refine ⟨rfl, rfl, by decide, by decide⟩

/-- Claim C4 (confirmed). The allow-list filter returns true exactly when
the lowercased URL contains one of the five allow-listed host strings as
a substring anywhere; in particular a URL that merely mentions
youtube.com in its path passes. -/
theorem host_filter_substring_iff :
    (∀ u : List Char, supports_site u = true ↔
      ∃ h, h ∈ ALLOWED_HOSTS ∧ ∃ a b, a ++ h ++ b = lowers u) ∧
    supports_site ("check http://evil.com/youtube.com/x".data) = true := by
  constructor
  · intro u
    simp only [supports_site, List.any_eq_true]
    constructor
    · rintro ⟨h, hm, hc⟩
      exact ⟨h, hm, (strContains_iff _ _).1 hc⟩
    · rintro ⟨h, hm, hc⟩
      exact ⟨h, hm, (strContains_iff _ _).2 hc⟩
  · decide

/-- Claim C5 (confirmed). When no URL is extracted, or the extracted URL
fails the allow-list, the handler's whole trace is the single rejection
reply: no progress message, no fetch, no attachment, no sweep. -/
theorem reject_no_side_effects (env : Env)
    (h : ∀ u, extract_url env.text = some u → supports_site u = false) :
    handle_text env = [Event.rejectReply] := by
  cases he : extract_url env.text with
  | none => simp [handle_text, he]
  | some url =>
    simp only [handle_text, he]
    rw [if_pos (Or.inr (h url he))]

/-- Witness for C5 at the spec's scenario 2 input. -/
theorem reject_no_side_effects_witness :
    (∀ u, extract_url envC5.text = some u → supports_site u = false) ∧
    handle_text envC5 = [Event.rejectReply] := by
  constructor
  · intro u hu
    rw [show extract_url envC5.text = none from by decide] at hu
    exact Option.noConfusion hu
  · exact reject_no_side_effects envC5 (fun u hu => by
      rw [show extract_url envC5.text = none from by decide] at hu
      exact Option.noConfusion hu)

/-- Claim C10 (confirmed). If the unlink of an eligible file raises an
exception other than FileNotFoundError, the sweep's loop stops there:
the result is the same whatever entries follow the failing one, i.e.
they are never examined or deleted, and the whole sweep still returns
normally (the guarding handler swallows the exception). -/
theorem sweep_abort_swallowed (now : Int) (pre : List FileEnt) (e : FileEnt)
    (es : List FileEnt) (h1 : e.isFile = true)
    (h2 : e.mtime < now - 60 * 60) (h3 : e.del = DelOutcome.err) :
    sweepGo now (pre ++ e :: es) = sweepGo now (pre ++ [e]) := by
  induction pre with
  | nil =>
    rw [List.nil_append, List.nil_append]
    simp only [sweepGo]
    rw [if_pos ⟨h1, h2⟩, if_pos ⟨h1, h2⟩, h3]
  | cons f fs ih =>
    rw [List.cons_append, List.cons_append]
    simp only [sweepGo]
    by_cases hf : f.isFile = true ∧ f.mtime < now - 60 * 60
    · rw [if_pos hf, if_pos hf]
      cases f.del <;> simp [ih]
    · rw [if_neg hf, if_neg hf]
      exact ih

/-- Witness for C10: with an erroring eligible entry in the middle, the
eligible entry after it is not deleted. -/
theorem sweep_abort_swallowed_witness :
    g2err.isFile = true ∧ g2err.mtime < (10000 : Int) - 60 * 60 ∧
    g2err.del = DelOutcome.err ∧
    sweepGo 10000 ([g1ok] ++ g2err :: [g3ok]) = sweepGo 10000 ([g1ok] ++ [g2err]) :=
  ⟨rfl, by decide, rfl,
    sweep_abort_swallowed 10000 [g1ok] g2err [g3ok] rfl (by decide) rfl⟩

/-- Claim C7 (corrected): counterexample to the claim as stated. The text
contains a substring beginning with http:// (its lowercased form
contains "http://"), yet extraction returns no URL at all — the regex
demands at least one non-whitespace character after the scheme — so
extraction does not return the first scheme-prefixed substring extended
to the next whitespace run. -/
theorem extraction_scheme_only_none :
    strContains (lowers ("see http://".data)) ("http://".data) = true ∧
    extract_url ("see http://".data) = none := by
  refine ⟨by decide, by decide⟩

/-- Claim C7 as amended (proved): whenever the pattern — a scheme
followed by at least one non-whitespace character — matches at some
position of the stripped text, extraction returns the match at the
first such position: that substring extended greedily up to the next
whitespace run. -/
theorem extraction_first_match (t : List Char) (i : Nat)
    (h : (tryAt ((strip t).drop i)).isSome = true) :
    ∃ j, j ≤ i ∧ (∀ k, k < j → tryAt ((strip t).drop k) = none) ∧
      extract_url t = some (((strip t).drop j).takeWhile (fun c => !pyWS c)) := by
  have hne : ¬(t = []) := by
    rintro rfl
    rw [show strip ([] : List Char) = [] from rfl, List.drop_nil, tryAt_nil] at h
    simp at h
  obtain ⟨j, hj, hnone, heq, hsome⟩ := searchFrom_first i h
  refine ⟨j, hj, hnone, ?_⟩
  rw [extract_url, if_neg hne, heq]
  exact tryAt_eq_takeWhile hsome

/-- Witness for the amended C7 at the spec's scenario 1 input: one URL
with trailing text, matched at position 6 of the stripped text. -/
theorem extraction_first_match_witness :
    (tryAt ((strip ("watch https://youtu.be/abc123 nice".data)).drop 6)).isSome
        = true ∧
    (∃ j, j ≤ 6 ∧
      (∀ k, k < j →
        tryAt ((strip ("watch https://youtu.be/abc123 nice".data)).drop k)
          = none) ∧
      extract_url ("watch https://youtu.be/abc123 nice".data) =
        some (((strip ("watch https://youtu.be/abc123 nice".data)).drop j).takeWhile
          (fun c => !pyWS c))) :=
  ⟨by decide, extraction_first_match _ 6 (by decide)⟩

/-- Claim C8 (confirmed). If the lowercased text contains neither
"http://" nor "https://" as a substring — which covers every empty or
blank input — extraction returns none. -/
theorem extraction_none_without_scheme (t : List Char)
    (h1 : strContains (lowers t) ("http://".data) = false)
    (h2 : strContains (lowers t) ("https://".data) = false) :
    extract_url t = none := by
  cases he : extract_url t with
  | none => rfl
  | some u =>
    obtain ⟨hsub, hpre, -⟩ := extract_sound he
    obtain ⟨a, b, hab⟩ := hsub
    rcases hpre with ⟨r, hr, -⟩ | ⟨r, hr, -⟩
    · have hc : strContains (lowers t) ("http://".data) = true := by
        apply (strContains_iff _ _).2
        simp only [lowers] at hr ⊢
        refine ⟨a.map Char.toLower, r ++ b.map Char.toLower, ?_⟩
        rw [← hab]
        simp [List.map_append, hr, List.append_assoc]
      rw [hc] at h1
      cases h1
    · have hc : strContains (lowers t) ("https://".data) = true := by
        apply (strContains_iff _ _).2
        simp only [lowers] at hr ⊢
        refine ⟨a.map Char.toLower, r ++ b.map Char.toLower, ?_⟩
        rw [← hab]
        simp [List.map_append, hr, List.append_assoc]
      rw [hc] at h2
      cases h2

/-- Witness for C8 at the spec's scenario 2 input. -/
theorem extraction_none_without_scheme_witness :
    strContains (lowers ("hello world".data)) ("http://".data) = false ∧
    strContains (lowers ("hello world".data)) ("https://".data) = false ∧
    extract_url ("hello world".data) = none :=
  ⟨by decide, by decide,
    extraction_none_without_scheme _ (by decide) (by decide)⟩

/-- Claim C9 (confirmed). Every URL returned by extraction is a
contiguous substring of the input, begins (case-insensitively) with
http:// or https:// followed by at least one further character, and
contains no whitespace. -/
theorem extraction_result_shape (t u : List Char)
    (h : extract_url t = some u) :
    (∃ a b, a ++ u ++ b = t) ∧
    ((∃ r, lowers u = "http://".data ++ r ∧ r ≠ []) ∨
     (∃ r, lowers u = "https://".data ++ r ∧ r ≠ [])) ∧
    (∀ c ∈ u, pyWS c = false) :=
  extract_sound h

/-- Witness for C9 on a mixed-case URL with surrounding text. -/
theorem extraction_result_shape_witness :
    extract_url ("watch https://YouTu.be/x now".data)
        = some ("https://YouTu.be/x".data) ∧
    ((∃ a b, a ++ "https://YouTu.be/x".data ++ b
        = "watch https://YouTu.be/x now".data) ∧
     ((∃ r, lowers ("https://YouTu.be/x".data) = "http://".data ++ r ∧ r ≠ []) ∨
      (∃ r, lowers ("https://YouTu.be/x".data) = "https://".data ++ r ∧ r ≠ [])) ∧
     (∀ c ∈ ("https://YouTu.be/x".data), pyWS c = false)) :=
  ⟨by decide, extraction_result_shape _ _ (by decide)⟩

/-- Claim C2 (confirmed). When the fetch succeeds and the video send
raises, the handler attempts the document send exactly once, with the
same file path and the fallback caption; if the document send succeeds
the progress message is deleted, and if it fails too the progress
message is edited to the error text, exactly as on a fetch failure. -/
theorem video_fallback_document_once (env : Env) (url : List Char)
    (path : String) (tOpt : Option String) (v : String)
    (hu : extract_url env.text = some url) (hs : supports_site url = true)
    (hf : env.fetch = Except.ok (path, tOpt))
    (hv : env.videoSend = Except.error v) :
    handle_text env =
      Event.chatAction :: Event.progressSent progressText ::
        Event.fetchInvoked url ::
        Event.videoAttempt path (videoCaption (tOpt.getD ("video"))) ::
        Event.docAttempt path (docCaption (tOpt.getD ("video"))) ::
        ((match env.docSend with
          | Except.ok _ => [Event.progressDeleted]
          | Except.error d => [Event.progressEdited (errText d)]) ++
         [Event.sweepRun (sweepGo env.loopTime env.files)]) ∧
    (handle_text env).countP Event.isDocAttempt = 1 := by
  have hlist : handle_text env =
      Event.chatAction :: Event.progressSent progressText ::
        Event.fetchInvoked url ::
        Event.videoAttempt path (videoCaption (tOpt.getD ("video"))) ::
        Event.docAttempt path (docCaption (tOpt.getD ("video"))) ::
        ((match env.docSend with
          | Except.ok _ => [Event.progressDeleted]
          | Except.error d => [Event.progressEdited (errText d)]) ++
         [Event.sweepRun (sweepGo env.loopTime env.files)]) := by
    simp only [handle_text, hu, if_neg (guard_false hs), relayEvents, hf, hv]
    cases hd : env.docSend <;> simp [hd]
  refine ⟨hlist, ?_⟩
  rw [hlist]
  cases hd : env.docSend <;>
    simp [hd, List.countP_cons, List.countP_append, Event.isDocAttempt]

/-- Witness for C2 at a successful document fallback. -/
theorem video_fallback_document_once_witness :
    extract_url envC2.text = some ("https://youtu.be/abc".data) ∧
    supports_site ("https://youtu.be/abc".data) = true ∧
    envC2.fetch = Except.ok ("f.mp4", some ("T")) ∧
    envC2.videoSend = Except.error ("too big") ∧
    (handle_text envC2 =
      Event.chatAction :: Event.progressSent progressText ::
        Event.fetchInvoked ("https://youtu.be/abc".data) ::
        Event.videoAttempt ("f.mp4") (videoCaption ((some ("T")).getD ("video"))) ::
        Event.docAttempt ("f.mp4") (docCaption ((some ("T")).getD ("video"))) ::
        ((match envC2.docSend with
          | Except.ok _ => [Event.progressDeleted]
          | Except.error d => [Event.progressEdited (errText d)]) ++
         [Event.sweepRun (sweepGo envC2.loopTime envC2.files)]) ∧
     (handle_text envC2).countP Event.isDocAttempt = 1) :=
  ⟨by decide, by decide, rfl, rfl,
    video_fallback_document_once envC2 _ _ _ _ (by decide) (by decide) rfl rfl⟩

/-- Claim C3 (confirmed). When the fetch raises with message e, the
handler's trace is: chat action, progress message, the fetch call, an
edit of the progress message to the error text containing e, and then
the janitor sweep — and it contains no attachment send. -/
theorem fetch_error_edits_progress (env : Env) (url : List Char) (e : String)
    (hu : extract_url env.text = some url) (hs : supports_site url = true)
    (hf : env.fetch = Except.error e) :
    handle_text env =
      [Event.chatAction, Event.progressSent progressText,
       Event.fetchInvoked url, Event.progressEdited (errText e),
       Event.sweepRun (sweepGo env.loopTime env.files)] ∧
    (handle_text env).countP Event.isAttach = 0 := by
  have hlist : handle_text env =
      [Event.chatAction, Event.progressSent progressText,
       Event.fetchInvoked url, Event.progressEdited (errText e),
       Event.sweepRun (sweepGo env.loopTime env.files)] := by
    simp [handle_text, hu, if_neg (guard_false hs), relayEvents, hf]
  refine ⟨hlist, ?_⟩
  rw [hlist]
  simp [List.countP_cons, Event.isAttach]

/-- Witness for C3 at the spec's scenario 5 input (message "network
timeout"); the sweep still runs (it is the trace's last event). -/
theorem fetch_error_edits_progress_witness :
    extract_url envC3.text = some ("https://www.youtube.com/watch?v=1".data) ∧
    supports_site ("https://www.youtube.com/watch?v=1".data) = true ∧
    envC3.fetch = Except.error ("network timeout") ∧
    (handle_text envC3 =
      [Event.chatAction, Event.progressSent progressText,
       Event.fetchInvoked ("https://www.youtube.com/watch?v=1".data),
       Event.progressEdited (errText ("network timeout")),
       Event.sweepRun (sweepGo envC3.loopTime envC3.files)] ∧
     (handle_text envC3).countP Event.isAttach = 0) :=
  ⟨by decide, by decide, rfl,
    fetch_error_edits_progress envC3 _ _ (by decide) (by decide) rfl⟩

/-- Claim C6 (corrected): counterexample to the claim as stated. On a
rejected message the handler's whole trace is the rejection reply and
contains no sweep, even though a sweep at this moment would have
deleted a file (the sweep's own result on this directory is nonempty). -/
theorem sweep_skipped_on_reject :
    handle_text envHello = [Event.rejectReply] ∧
    (handle_text envHello).countP Event.isSweep = 0 ∧
    sweepGo envHello.loopTime envHello.files ≠ [] := by
  refine ⟨by decide, by decide, by decide⟩

/-- Claim C6 as amended (proved): for every message that passes
validation (a URL is extracted and allowed), the sweep runs exactly
once, as the final action of the handling attempt, whatever the fetch
and send outcomes; on rejection the handler returns before the
try/finally and no sweep runs. -/
theorem sweep_runs_after_validation (env : Env) (url : List Char)
    (hu : extract_url env.text = some url) (hs : supports_site url = true) :
    (handle_text env).getLast? =
      some (Event.sweepRun (sweepGo env.loopTime env.files)) ∧
    (handle_text env).countP Event.isSweep = 1 := by
  simp only [handle_text, hu, if_neg (guard_false hs)]
  constructor
  · rw [← List.cons_append, ← List.cons_append, ← List.cons_append]
    exact List.getLast?_concat _
  · simp [List.countP_cons, List.countP_append, Event.isSweep,
      relay_no_sweep env]

/-- Witness for the amended C6 on a successful run. -/
theorem sweep_runs_after_validation_witness :
    extract_url envC6.text = some ("https://fb.watch/abc".data) ∧
    supports_site ("https://fb.watch/abc".data) = true ∧
    ((handle_text envC6).getLast? =
      some (Event.sweepRun (sweepGo envC6.loopTime envC6.files)) ∧
     (handle_text envC6).countP Event.isSweep = 1) :=
  ⟨by decide, by decide,
    sweep_runs_after_validation envC6 ("https://fb.watch/abc".data)
      (by decide) (by decide)⟩

end AuraLinker
